import Mathlib

/-!
Verification of the SkyBin renter core: a shallow embedding of the
storage manager (`storagemanager.go`), the download pipeline
(`renter/download.go`), the metaserver HTTP client
(`metaserver/client.go`) and the upload pipeline's padding arithmetic,
together with theorems settling the specification's claims about them.

Conventions of the embedding:
* Go byte slices are `List Nat`; Go `int64` and `time.Time` are `Int`
  (claims never exercise 64-bit wraparound);
* fallible Go functions return `Except String α` carrying the source's
  error strings;
* external effects (the block transport, the metaserver refresh
  callback, RSA decryption, the process-wide random generator) are
  explicit parameters, so every definition is executable.
-/

namespace SkyBin

/-- Decidable equality for `Except`, so that concrete runs of the
embedded operations can be checked by `decide`. -/
instance {ε α : Type} [DecidableEq ε] [DecidableEq α] :
    DecidableEq (Except ε α) := fun x y =>
  match x, y with
  | Except.ok a, Except.ok b =>
    if h : a = b then isTrue (congrArg Except.ok h)
    else isFalse (fun hc => h (Except.ok.inj hc))
  | Except.error a, Except.error b =>
    if h : a = b then isTrue (congrArg Except.error h)
    else isFalse (fun hc => h (Except.error.inj hc))
  | Except.ok _, Except.error _ => isFalse (fun hc => Except.noConfusion hc)
  | Except.error _, Except.ok _ => isFalse (fun hc => Except.noConfusion hc)

/-! ## Data model (spec section 3; the `core` package is not in scope,
so these records transcribe the spec's data model). -/

/-- Location of a stored block: the provider holding it and its network
address. -/
structure BlockLocation where
  ProviderId : String
  Addr : String
  deriving Repr, DecidableEq, Inhabited

/-- A block descriptor: opaque id, on-wire size in bytes, base64url of
the SHA-256 of the on-wire bytes, and its location. -/
structure Block where
  ID : String
  Size : Int
  Sha256Hash : String
  Location : BlockLocation
  deriving Repr, DecidableEq, Inhabited

/-- An access-list entry: the file's symmetric key and IV wrapped under
`RenterId`'s public key (base64url strings). -/
structure Permission where
  RenterId : String
  AesKey : String
  AesIV : String
  deriving Repr, DecidableEq, Inhabited

/-- One version of a file: erasure-coding parameters, padding, and the
`NumDataBlocks + NumParityBlocks` block descriptors in coding order. -/
structure Version where
  Num : Int
  Size : Int
  NumDataBlocks : Nat
  NumParityBlocks : Nat
  PaddingBytes : Int
  Blocks : List Block
  deriving Repr, DecidableEq, Inhabited

/-- A file record: identity, name, directory flag, owner, the wrapped
symmetric key and IV (base64url strings), access list and versions. -/
structure File where
  ID : String
  OwnerID : String
  Name : String
  IsDir : Bool
  AesKey : String
  AesIV : String
  AccessList : List Permission
  Versions : List Version
  deriving Repr, DecidableEq, Inhabited

/-- A freelist entry of the storage manager: unused bytes believed
available under one storage contract. -/
structure storageBlob where
  ProviderId : String
  Addr : String
  Amount : Int
  ContractId : String
  deriving Repr, DecidableEq, Inhabited

/-! ## Upload padding arithmetic (spec 4.E step 4; the upload source is
not under `src/`, so this is modelled from the spec). -/

/-- Modelled from the spec: the upload pipeline (absent from `src/`)
chooses shard size `s = ceil(L / k)` for a temp file of length `L` and
`k` data shards. -/
def shardSize (L k : Nat) : Nat := (L + k - 1) / k

/-- Modelled from the spec: the upload pipeline zero-extends the temp
file by `padding = s * k - L` bytes. -/
def paddingBytes (L k : Nat) : Nat := shardSize L k * k - L

/-! ## Download pipeline: block fetch (`downloadBlock`,
`renter/download.go`).

`downloadBlock` streams the block from the provider, counts the bytes,
and recomputes the base64url-encoded SHA-256.  The transport and the
hash are parameters: `delivered` is the outcome of
`provider.Client.GetBlock` plus the local copy (`Except.error` when the
transport failed), and `H` is `base64url ∘ SHA-256` applied to the
delivered byte stream. -/

/-- Embedding of `Renter.downloadBlock`: reject on transport error, on a
byte count different from `block.Size`, and on a recomputed hash
different from `block.Sha256Hash`; otherwise succeed. -/
def downloadBlock (H : List Nat → String) (block : Block)
    (delivered : Except String (List Nat)) : Except String Unit :=
  match delivered with
  | Except.error e => Except.error e
  | Except.ok bytes =>
    if (bytes.length : Int) ≠ block.Size then
      Except.error "Corrupted block: block has incorrect size."
    else if H bytes ≠ block.Sha256Hash then
      Except.error "Corrupted block: block hash does not match that expected."
    else
      Except.ok ()

/-! ## Metaserver HTTP client (`metaserver/client.go`).

Each CRUD method first checks the cached bearer token when the Go code
does, then issues one HTTP request.  The embedding returns the request
that would be sent (method, path, and optional `Authorization` header),
or the error produced before any request. -/

/-- An HTTP request as assembled by the metaserver client: method, path
and the optional `Authorization` header value. -/
structure HttpRequest where
  method : String
  path : String
  auth : Option String
  deriving Repr, DecidableEq, Inhabited

/-- The error every token-guarded client method returns when no bearer
token has been obtained. -/
def authMissingMsg : String := "must authorize before calling this method"

/-- The metaserver client's CRUD surface; constructor arguments are the
path parameters of the corresponding Go method. -/
inductive ClientOp where
  | RegisterProvider
  | GetProviders
  | GetProvider (providerID : String)
  | UpdateProvider (providerID : String)
  | DeleteProvider (providerID : String)
  | RegisterRenter
  | GetRenter (renterID : String)
  | UpdateRenter (renterID : String)
  | DeleteRenter (renterID : String)
  | PostFile (renterID : String)
  | UpdateFile (renterID fileID : String)
  | GetFile (renterID fileID : String)
  | GetFiles (renterID : String)
  | DeleteFile (renterID fileID : String)
  | PostFileVersion (renterID fileID : String)
  | PutFileVersion (renterID fileID : String) (versionNum : Int)
  | GetFileVersion (renterID fileID : String) (versionNum : Int)
  | GetFileVersions (renterID fileID : String)
  | DeleteFileVersion (renterID fileID : String) (versionNum : Int)
  | GetSharedFile (renterID fileID : String)
  | ShareFile (renterID fileID : String)
  | UnshareFile (renterID fileID userID : String)
  | GetSharedFiles (renterID : String)
  | RemoveSharedFile (renterID fileID : String)
  | PostContract (renterID : String)
  | GetContract (renterID contractID : String)
  | GetRenterContracts (renterID : String)
  | DeleteContract (renterID contractID : String)
  deriving Repr, DecidableEq

/-- Embedding of the preamble of each `metaserver.Client` method: the
request it sends, after the token guard those methods that have one.
`token` is the client's cached bearer token (`""` before any successful
`Authorize*` call).  Transcribed method by method from
`metaserver/client.go`. -/
def clientRequest (op : ClientOp) (token : String) : Except String HttpRequest :=
  let bearer : Option String := some ("Bearer " ++ token)
  let guard : HttpRequest → Except String HttpRequest := fun req =>
    if token = "" then Except.error authMissingMsg else Except.ok req
  match op with
  | ClientOp.RegisterProvider =>
    Except.ok { method := "POST", path := "/providers", auth := none }
  | ClientOp.GetProviders =>
    Except.ok { method := "GET", path := "/providers", auth := none }
  | ClientOp.GetProvider pid =>
    Except.ok { method := "GET", path := "/providers/" ++ pid, auth := none }
  | ClientOp.UpdateProvider pid =>
    guard { method := "PUT", path := "/providers/" ++ pid, auth := bearer }
  | ClientOp.DeleteProvider pid =>
    guard { method := "DELETE", path := "/providers/" ++ pid, auth := bearer }
  | ClientOp.RegisterRenter =>
    Except.ok { method := "POST", path := "/renters", auth := none }
  | ClientOp.GetRenter rid =>
    guard { method := "GET", path := "/renters/" ++ rid, auth := bearer }
  | ClientOp.UpdateRenter rid =>
    guard { method := "PUT", path := "/renters/" ++ rid, auth := bearer }
  | ClientOp.DeleteRenter rid =>
    guard { method := "DELETE", path := "/renters/" ++ rid, auth := bearer }
  | ClientOp.PostFile rid =>
    guard { method := "POST", path := "/renters/" ++ rid ++ "/files", auth := bearer }
  | ClientOp.UpdateFile rid fid =>
    guard { method := "PUT", path := "/renters/" ++ rid ++ "/files/" ++ fid, auth := bearer }
  | ClientOp.GetFile rid fid =>
    guard { method := "GET", path := "/renters/" ++ rid ++ "/files/" ++ fid, auth := bearer }
  | ClientOp.GetFiles rid =>
    guard { method := "GET", path := "/renters/" ++ rid ++ "/files", auth := bearer }
  | ClientOp.DeleteFile rid fid =>
    guard { method := "DELETE", path := "/renters/" ++ rid ++ "/files/" ++ fid, auth := bearer }
  | ClientOp.PostFileVersion rid fid =>
    guard { method := "POST", path := "/renters/" ++ rid ++ "/files/" ++ fid ++ "/versions",
            auth := bearer }
  | ClientOp.PutFileVersion rid fid n =>
    guard { method := "PUT",
            path := "/renters/" ++ rid ++ "/files/" ++ fid ++ "/versions/" ++ toString n,
            auth := bearer }
  | ClientOp.GetFileVersion rid fid n =>
    guard { method := "GET",
            path := "/renters/" ++ rid ++ "/files/" ++ fid ++ "/versions/" ++ toString n,
            auth := bearer }
  | ClientOp.GetFileVersions rid fid =>
    guard { method := "GET", path := "/renters/" ++ rid ++ "/files/" ++ fid ++ "/versions",
            auth := bearer }
  | ClientOp.DeleteFileVersion rid fid n =>
    guard { method := "DELETE",
            path := "/renters/" ++ rid ++ "/files/" ++ fid ++ "/versions/" ++ toString n,
            auth := bearer }
  | ClientOp.GetSharedFile rid fid =>
    guard { method := "GET", path := "/renters/" ++ rid ++ "/shared/" ++ fid, auth := bearer }
  | ClientOp.ShareFile rid fid =>
    guard { method := "POST", path := "/renters/" ++ rid ++ "/files/" ++ fid ++ "/permissions",
            auth := bearer }
  | ClientOp.UnshareFile rid fid uid =>
    guard { method := "DELETE",
            path := "/renters/" ++ rid ++ "/files/" ++ fid ++ "/permissions/" ++ uid,
            auth := bearer }
  | ClientOp.GetSharedFiles rid =>
    guard { method := "GET", path := "/renters/" ++ rid ++ "/shared", auth := bearer }
  | ClientOp.RemoveSharedFile rid fid =>
    guard { method := "DELETE", path := "/renters/" ++ rid ++ "/shared/" ++ fid, auth := bearer }
  | ClientOp.PostContract rid =>
    guard { method := "POST", path := "/renters/" ++ rid ++ "/contracts", auth := bearer }
  | ClientOp.GetContract rid cid =>
    guard { method := "GET", path := "/renters/" ++ rid ++ "/contracts/" ++ cid, auth := bearer }
  | ClientOp.GetRenterContracts rid =>
    guard { method := "GET", path := "/renters/" ++ rid ++ "/contracts", auth := bearer }
  | ClientOp.DeleteContract rid cid =>
    guard { method := "DELETE", path := "/renters/" ++ rid ++ "/contracts/" ++ cid,
            auth := bearer }

/-- An operation mutates directory state when its HTTP method is not
GET (POST, PUT or DELETE), regardless of the token outcome. -/
def ClientOp.isMutating (op : ClientOp) : Bool :=
  match clientRequest op "t" with
  | Except.ok req => req.method != "GET"
  | Except.error _ => false

/-- The GET operations whose URL (see `clientRequest`) lives under
`/renters/<id>/...`: renter record, files, versions, shared files and
contracts. -/
def ClientOp.isRenterRead : ClientOp → Bool
  | ClientOp.GetRenter _ => true
  | ClientOp.GetFiles _ => true
  | ClientOp.GetFile _ _ => true
  | ClientOp.GetFileVersion _ _ _ => true
  | ClientOp.GetFileVersions _ _ => true
  | ClientOp.GetSharedFile _ _ => true
  | ClientOp.GetSharedFiles _ => true
  | ClientOp.GetContract _ _ => true
  | ClientOp.GetRenterContracts _ => true
  | _ => false

/-! ## Storage manager (`storagemanager.go`).

The mutable `storageManager` becomes explicit state passing.  The Go
`map[string]time.Time` of offline providers becomes an association
list, `time.Time` becomes `Int`, and the process-wide random generator
becomes explicit parameters: `startIdx` for the rotation index drawn in
`findCandidates` and `js` for the draws of `shuffleBlobs`.  The
`updateFn` callback's outcome is the parameter `updateResult` (`none`
when it returned an error).  `kMinBlobSize` (a constant defined outside
the sources in scope) is a parameter. -/

/-- Go map lookup on the association-list model of `offlinePvdrs`. -/
def lookupAssoc (m : List (String × Int)) (k : String) : Option Int :=
  match m with
  | [] => none
  | (k1, v1) :: rest => if k1 = k then some v1 else lookupAssoc rest k

/-- Go map assignment on the association-list model of `offlinePvdrs`. -/
def setAssoc (m : List (String × Int)) (k : String) (v : Int) : List (String × Int) :=
  match m with
  | [] => [(k, v)]
  | (k1, v1) :: rest => if k1 = k then (k, v) :: rest else (k1, v1) :: setAssoc rest k v

/-- State of `storageManager`: the freelist, the offline map, and the
time of the last cache refresh. -/
structure SMState where
  freelist : List storageBlob
  offlinePvdrs : List (String × Int)
  lastCacheUpdate : Int
  deriving Repr, DecidableEq, Inhabited

/-- Total `Amount` over a freelist. -/
def freelistTotal (freelist : List storageBlob) : Int :=
  freelist.foldl (fun acc b => acc + b.Amount) 0

/-- Embedding of `storageManager.addBlob`: merge into the existing entry
with the same `ContractId`, else append. -/
def addBlob (freelist : List storageBlob) (blob : storageBlob) : List storageBlob :=
  match freelist with
  | [] => [blob]
  | b :: rest =>
    if b.ContractId = blob.ContractId then
      { b with Amount := b.Amount + blob.Amount } :: rest
    else
      b :: addBlob rest blob

/-- Embedding of `storageManager.MarkProvidersOffline`: for each id keep
the later of the existing release time and `untilT`. -/
def MarkProvidersOffline (offline : List (String × Int)) (pvdrIds : List String)
    (untilT : Int) : List (String × Int) :=
  pvdrIds.foldl
    (fun m pvdrId =>
      let t := match lookupAssoc m pvdrId with
               | none => untilT
               | some t0 => if t0 < untilT then untilT else t0
      setAssoc m pvdrId t)
    offline

/-- Embedding of `storageManager.updateOfflineProviders`: drop entries
whose release time is before `now`. -/
def updateOfflineProviders (offline : List (String × Int)) (now : Int) :
    List (String × Int) :=
  offline.filter (fun p => !(p.2 < now))

/-- Embedding of `storageManager.findCandidates`: scan the freelist
cyclically from `startIdx`, keeping the indices of blobs with
`Amount ≥ blobSize` whose provider is not offline.  `startIdx` is the
value of `rand.Intn(len(freelist))`. -/
def findCandidates (freelist : List storageBlob) (offline : List (String × Int))
    (blobSize : Int) (startIdx : Nat) : List Nat :=
  if freelist.isEmpty then [] else
  (List.range freelist.length).filterMap (fun step =>
    let idx := (startIdx + step) % freelist.length
    let blob := freelist.getD idx default
    if blob.Amount ≥ blobSize ∧ lookupAssoc offline blob.ProviderId = none then
      some idx
    else none)

/-- The body of `findStorage`'s selection loop.  `cands` holds freelist
indices (the Go `candidate` pointers), `i` the loop's cursor, `need`
the number of blobs still to produce (the loop appends exactly one blob
per iteration, so `nblobs - len(blobs)` is the recursion measure), and
`acc` the produced `(source index, blob)` pairs in reverse order.
Returns the decremented freelist and the pairs in production order. -/
def findStorageLoop (blobSize : Int) :
    List storageBlob → List Nat → Nat → Nat → List (Nat × storageBlob) →
    List storageBlob × List (Nat × storageBlob)
  | fl, _, _, 0, acc => (fl, acc.reverse)
  | fl, cands, i, need + 1, acc =>
    if cands.isEmpty then (fl, acc.reverse)
    else
      let idx := cands.getD i 0
      let src := fl.getD idx default
      let newBlob : storageBlob :=
        { ProviderId := src.ProviderId, Amount := blobSize,
          Addr := src.Addr, ContractId := src.ContractId }
      let fl2 := fl.set idx { src with Amount := src.Amount - blobSize }
      let acc2 := (idx, newBlob) :: acc
      let cands2 := if src.Amount - blobSize < blobSize then cands.eraseIdx i else cands
      if cands2.isEmpty then (fl2, acc2.reverse)
      else findStorageLoop blobSize fl2 cands2 ((i + 1) % cands2.length) need acc2

/-- Embedding of `storageManager.findStorage` exposing the source index
of each produced blob: build the candidate list, run the selection
loop, then either roll back via `addBlob` and fail, or prune entries
below `kMinBlobSize` and succeed. -/
def findStorageP (freelist : List storageBlob) (offline : List (String × Int))
    (nblobs : Nat) (blobSize : Int) (startIdx : Nat) (kMinBlobSize : Int) :
    List storageBlob × Except String (List (Nat × storageBlob)) :=
  let cands := findCandidates freelist offline blobSize startIdx
  let r := findStorageLoop blobSize freelist cands 0 nblobs []
  if r.2.length < nblobs then
    (r.2.foldl (fun fl p => addBlob fl p.2) r.1, Except.error "Cannot find enough storage.")
  else
    (r.1.filter (fun b => !(b.Amount < kMinBlobSize)), Except.ok r.2)

/-- Embedding of `storageManager.findStorage` proper (blobs only). -/
def findStorage (freelist : List storageBlob) (offline : List (String × Int))
    (nblobs : Nat) (blobSize : Int) (startIdx : Nat) (kMinBlobSize : Int) :
    List storageBlob × Except String (List storageBlob) :=
  let r := findStorageP freelist offline nblobs blobSize startIdx kMinBlobSize
  (r.1, r.2.map (fun ps => ps.map (fun p => p.2)))

/-- Embedding of `shuffleBlobs`: Fisher-Yates driven by the draws `js`
(`js.getD p 0 % (i + 1)` stands for the `rand.Intn(i + 1)` drawn at the
`p`-th step, walking `i` from `len - 1` down to `0`). -/
def shuffleBlobs (blobs : List storageBlob) (js : List Nat) : List storageBlob :=
  let steps := (List.range blobs.length).reverse
  (steps.enum.foldl
    (fun bs step =>
      let j := js.getD step.1 0 % (step.2 + 1)
      (bs.set step.2 (bs.getD j default)).set j (bs.getD step.2 default))
    blobs)

/-- Embedding of `storageManager.updateCache`: on callback error leave
the state unchanged; on success shuffle the fresh list, install it as
the freelist, and stamp `lastCacheUpdate`. -/
def updateCache (st : SMState) (updateResult : Option (List storageBlob))
    (js : List Nat) (now : Int) : SMState :=
  match updateResult with
  | none => st
  | some blobs =>
    { st with freelist := shuffleBlobs blobs js, lastCacheUpdate := now }

/-- Embedding of `storageManager.maybeUpdateCache`: refresh
unconditionally when the freelist is empty, else refresh when
`now - lastCacheUpdate > updateFreq`. -/
def maybeUpdateCache (st : SMState) (updateResult : Option (List storageBlob))
    (js : List Nat) (now updateFreq : Int) : SMState :=
  if st.freelist.isEmpty then updateCache st updateResult js now
  else if now - st.lastCacheUpdate > updateFreq then updateCache st updateResult js now
  else st

/-- Embedding of `storageManager.AvailableStorage`: always refresh, then
sum the freelist. -/
def AvailableStorage (st : SMState) (updateResult : Option (List storageBlob))
    (js : List Nat) (now : Int) : SMState × Int :=
  let st2 := updateCache st updateResult js now
  (st2, freelistTotal st2.freelist)

/-- Embedding of `storageManager.FindStorage`: maybe refresh the cache,
drop expired offline entries, then run `findStorage`. -/
def FindStorageOp (st : SMState) (updateResult : Option (List storageBlob))
    (js : List Nat) (now updateFreq : Int) (nblobs : Nat) (blobSize : Int)
    (startIdx : Nat) (kMinBlobSize : Int) :
    SMState × Except String (List storageBlob) :=
  let st1 := maybeUpdateCache st updateResult js now updateFreq
  let offline2 := updateOfflineProviders st1.offlinePvdrs now
  let r := findStorage st1.freelist offline2 nblobs blobSize startIdx kMinBlobSize
  ({ st1 with freelist := r.1, offlinePvdrs := offline2 }, r.2)

/-! ## Download pipeline (`renter/download.go`).

`performFileDownload`'s fetch loop becomes `pfdLoop`; the per-block
transport-and-verify outcome (`downloadBlock`, whose internals are
embedded above) is the oracle `fetch`, and everything after the loop
(`finishDownload`: reconstruction, padding removal, decrypt,
decompress — all temp-file I/O) is the oracle `finish`. -/

/-- Per-block download record, as built by `performFileDownload`
(`Error = none` on success; the timing fields are wall-clock I/O and
are not modelled). -/
structure BlockDownloadInfo where
  BlockId : String
  ProviderId : String
  Location : String
  Error : Option String
  deriving Repr, DecidableEq, Inhabited

/-- The record `performFileDownload` builds for one attempted block. -/
def mkBlockInfo (b : Block) (e : Option String) : BlockDownloadInfo :=
  { BlockId := b.ID, ProviderId := b.Location.ProviderId,
    Location := b.Location.Addr, Error := e }

/-- The fetch loop of `performFileDownload`: while `successes <
NumDataBlocks` and `failures <= NumParityBlocks`, fetch block `i`,
record its result, bump the matching counter, and advance.  Returns the
records in attempt order with the final success and failure counts. -/
def pfdLoop (blocks : List Block) (fetch : Nat → Except String Unit) (k m : Nat)
    (i succ fail : Nat) (infos : List BlockDownloadInfo) :
    List BlockDownloadInfo × Nat × Nat :=
  if h : succ < k ∧ fail ≤ m then
    let block := blocks.getD i default
    match fetch i with
    | Except.ok _ =>
      pfdLoop blocks fetch k m (i + 1) (succ + 1) fail (infos ++ [mkBlockInfo block none])
    | Except.error e =>
      pfdLoop blocks fetch k m (i + 1) succ (fail + 1) (infos ++ [mkBlockInfo block (some e)])
  else (infos, succ, fail)
termination_by (k - succ) + (m + 1 - fail)
decreasing_by
  all_goals omega

/-- The fetch loop as entered by `performFileDownload`: counters and
cursor start at zero with no records. -/
def pfdRun (version : Version) (fetch : Nat → Except String Unit) :
    List BlockDownloadInfo × Nat × Nat :=
  pfdLoop version.Blocks fetch version.NumDataBlocks version.NumParityBlocks 0 0 0 []

/-- The error recorded for block `j` by the fetch loop (`none` on
success). -/
def errOf : Except String Unit → Option String
  | Except.ok _ => none
  | Except.error e => some e

/-- The error `performFileDownload` returns when it could not gather
`NumDataBlocks` valid shards (the spec's `InsufficientShards`). -/
def insufficientShardsMsg : String := "Failed to download enough file data blocks."

/-- Embedding of `Renter.performFileDownload`: run the fetch loop; fail
with `insufficientShardsMsg` when fewer than `NumDataBlocks` fetches
succeeded; otherwise run `finishDownload` (oracle `finish`) and return
the per-block records. -/
def performFileDownload (version : Version) (fetch : Nat → Except String Unit)
    (finish : Except String Unit) : Except String (List BlockDownloadInfo) :=
  let r := pfdRun version fetch
  if r.2.1 < version.NumDataBlocks then
    Except.error insufficientShardsMsg
  else
    match finish with
    | Except.error e => Except.error e
    | Except.ok _ => Except.ok r.1

/-- The error `decryptEncryptionKeys` returns when no usable key entry
was selected (the spec's `NotPermitted`). -/
def notPermittedMsg : String := "could not find permission in access list"

/-- The tail of `decryptEncryptionKeys`: base64url-decode the selected
wrapped key and IV, then RSA-OAEP-decrypt each with the renter's
private key (oracles `b64decode` and `rsaDecrypt`), wrapping decrypt
errors the way the Go code does. -/
def decryptPair (b64decode : String → Except String (List Nat))
    (rsaDecrypt : List Nat → Except String (List Nat)) (keyStr ivStr : String) :
    Except String (List Nat × List Nat) :=
  match b64decode keyStr with
  | Except.error e => Except.error e
  | Except.ok keyBytes =>
    match b64decode ivStr with
    | Except.error e => Except.error e
    | Except.ok ivBytes =>
      match rsaDecrypt keyBytes with
      | Except.error e => Except.error ("Unable to decrypt aes key. Error: " ++ e)
      | Except.ok aesKey =>
        match rsaDecrypt ivBytes with
        | Except.error e => Except.error ("Unable to decrypt aes IV. Error: " ++ e)
        | Except.ok aesIV => Except.ok (aesKey, aesIV)

/-- Embedding of `Renter.decryptEncryptionKeys`: select the wrapped key
and IV (owner's fields when the caller owns the file, else the last
matching access-list entry, starting from empty strings), fail with
`notPermittedMsg` when either selected string is empty, then decode and
decrypt. -/
def decryptEncryptionKeys (b64decode : String → Except String (List Nat))
    (rsaDecrypt : List Nat → Except String (List Nat)) (renterId : String)
    (f : File) : Except String (List Nat × List Nat) :=
  let sel : String × String :=
    if f.OwnerID = renterId then (f.AesKey, f.AesIV)
    else
      f.AccessList.foldl
        (fun acc p => if p.RenterId = renterId then (p.AesKey, p.AesIV) else acc)
        ("", "")
  if sel.1 = "" ∨ sel.2 = "" then Except.error notPermittedMsg
  else decryptPair b64decode rsaDecrypt sel.1 sel.2

/-! ## `Renter.Download` front end.

The observable side effects relevant here are directory creation
(`mkdir`, i.e. `os.MkdirAll`, modelled as succeeding) and block
transfer attempts; `Download` returns its outcome together with the
list of those actions in order.  `GetFile`'s result is the parameter
`file`; `defaultDownloadLocation` (home-directory probing) is the
parameter `defaultPath`. -/

/-- An observable side effect of the download front end. -/
inductive RAction where
  | MkDir (destPath : String)
  | FetchBlock (blockId : String)
  deriving Repr, DecidableEq

/-- The block-transfer attempts `performFileDownload` makes, in order
(one per record in its result). -/
def fetchActions (version : Version) (fetch : Nat → Except String Unit) : List RAction :=
  (pfdRun version fetch).1.map (fun info => RAction.FetchBlock info.BlockId)

/-- Embedding of `Renter.downloadFile` at the action level. -/
def downloadFileM (version : Version) (fetch : Nat → Except String Unit)
    (finish : Except String Unit) : Except String Unit × List RAction :=
  match performFileDownload version fetch finish with
  | Except.error e => (Except.error e, fetchActions version fetch)
  | Except.ok _ => (Except.ok (), fetchActions version fetch)

/-- Modelled from the spec: `findChildren` (not under `src/`) returns
every file whose `Name` starts with `dir.Name ++ "/"`. -/
def findChildren (allFiles : List File) (dir : File) : List File :=
  allFiles.filter (fun f => (dir.Name ++ "/").isPrefixOf f.Name)

/-- `strings.TrimPrefix`: drop `pre` from the front of `s` when it is a
prefix, else return `s` unchanged. -/
def trimPrefix (s pre : String) : String :=
  if pre.isPrefixOf s then (s.drop pre.length) else s

/-- Embedding of `Renter.findVersion`: first version whose `Num`
matches. -/
def findVersion (file : File) (versionNum : Int) : Option Version :=
  file.Versions.find? (fun v => v.Num == versionNum)

/-- The child loop of `Renter.performDirDownload`: create sub-folders,
download each regular child's latest version, abort on the first child
failure. -/
def performDirChildren (dirName destPath : String)
    (fetch : String → Nat → Except String Unit) (finish : String → Except String Unit) :
    List File → List RAction → Except String Unit × List RAction
  | [], acts => (Except.ok (), acts)
  | child :: rest, acts =>
    let fullPath := destPath ++ "/" ++ trimPrefix child.Name (dirName ++ "/")
    if child.IsDir then
      performDirChildren dirName destPath fetch finish rest (acts ++ [RAction.MkDir fullPath])
    else if child.Versions.isEmpty then
      (Except.error ("File " ++ child.Name ++ " has no versions to download."), acts)
    else
      let version := child.Versions.getLastD default
      let r := downloadFileM version (fetch child.ID) (finish child.ID)
      match r.1 with
      | Except.error e => (Except.error e, acts ++ r.2)
      | Except.ok _ => performDirChildren dirName destPath fetch finish rest (acts ++ r.2)

/-- Embedding of `Renter.performDirDownload`: create the root folder,
then walk the children. -/
def performDirDownload (allFiles : List File) (dir : File) (destPath : String)
    (fetch : String → Nat → Except String Unit) (finish : String → Except String Unit) :
    Except String Unit × List RAction :=
  performDirChildren dir.Name destPath fetch finish (findChildren allFiles dir)
    [RAction.MkDir destPath]

/-- Embedding of `Renter.Download` (after `GetFile` resolved to `file`):
reject the version option for folders, default the destination, then
dispatch to the folder walk or the single-file download of the
requested (default: latest) version. -/
def Download (allFiles : List File) (file : File) (destPath : String)
    (versionNum : Option Int) (defaultPath : String)
    (fetch : String → Nat → Except String Unit) (finish : String → Except String Unit) :
    Except String Unit × List RAction :=
  if file.IsDir ∧ versionNum.isSome then
    (Except.error "Cannot give version option with folder download", [])
  else
    let dest := if destPath = "" then defaultPath else destPath
    if file.IsDir then
      performDirDownload allFiles file dest fetch finish
    else if file.Versions.isEmpty then
      (Except.error "File has no versions", [])
    else
      match versionNum with
      | none => downloadFileM (file.Versions.getLastD default) (fetch file.ID) (finish file.ID)
      | some n =>
        match findVersion file n with
        | none => (Except.error ("Cannot find version " ++ toString n), [])
        | some v => downloadFileM v (fetch file.ID) (finish file.ID)

/-! ## Concrete fixtures used by the witness theorems. -/

/-- A concrete stand-in for `base64url of SHA-256` in witnesses: the
byte count as a string (any function of the bytes works for
exercising the gating logic). -/
def hashWit : List Nat → String := fun l => toString l.length

/-- A block descriptor matching `hashWit` on the two-byte stream
`[7, 9]`. -/
def blockWit : Block :=
  { ID := "b", Size := 2, Sha256Hash := "2",
    Location := { ProviderId := "p", Addr := "a" } }

/-- A three-block version with `k = 2`, `m = 1`. -/
def vWit : Version :=
  { Num := 1, Size := 0, NumDataBlocks := 2, NumParityBlocks := 1, PaddingBytes := 0,
    Blocks :=
      [{ ID := "b0", Size := 4, Sha256Hash := "h0",
         Location := { ProviderId := "p0", Addr := "a0" } },
       { ID := "b1", Size := 4, Sha256Hash := "h1",
         Location := { ProviderId := "p1", Addr := "a1" } },
       { ID := "b2", Size := 4, Sha256Hash := "h2",
         Location := { ProviderId := "p2", Addr := "a2" } }] }

/-- A fetch oracle failing exactly on block 0. -/
def fetchWit : Nat → Except String Unit := fun j =>
  if j = 0 then Except.error "connection refused" else Except.ok ()

/-- A concrete base64url-decode oracle for witnesses. -/
def b64Wit : String → Except String (List Nat) := fun s => Except.ok [s.length]

/-- A concrete RSA-decrypt oracle for witnesses. -/
def rsaWit : List Nat → Except String (List Nat) := fun l => Except.ok l

/-- A file owned by renter `A` with nonempty wrapped key and IV. -/
def fWit : File :=
  { ID := "f1", OwnerID := "A", Name := "x", IsDir := false, AesKey := "k", AesIV := "i",
    AccessList := [], Versions := [] }

/-- A directory file record. -/
def dirWit : File :=
  { ID := "d1", OwnerID := "A", Name := "dir", IsDir := true, AesKey := "k", AesIV := "i",
    AccessList := [], Versions := [] }

/-- A manager state whose provider `p0` is offline until time 100. -/
def stWit : SMState :=
  { freelist :=
      [{ ProviderId := "p0", Addr := "a0", Amount := 50, ContractId := "c0" },
       { ProviderId := "p1", Addr := "a1", Amount := 10, ContractId := "c1" },
       { ProviderId := "p2", Addr := "a2", Amount := 50, ContractId := "c2" }],
    offlinePvdrs := [("p0", 100)], lastCacheUpdate := 0 }

/-- A two-entry freelist with plenty of room in each entry. -/
def fl5Wit : List storageBlob :=
  [{ ProviderId := "p0", Addr := "a0", Amount := 50, ContractId := "c0" },
   { ProviderId := "p1", Addr := "a1", Amount := 50, ContractId := "c1" }]

/-- The placement `findStorage` produces from `fl5Wit` for two blobs of
size 10 starting at rotation index 0. -/
def ps5Wit : List (Nat × storageBlob) :=
  [(0, { ProviderId := "p0", Addr := "a0", Amount := 10, ContractId := "c0" }),
   (1, { ProviderId := "p1", Addr := "a1", Amount := 10, ContractId := "c1" })]

/-! ## Supporting lemmas. -/

theorem freelistTotal_aux (fl : List storageBlob) (a : Int) :
    fl.foldl (fun acc b => acc + b.Amount) a = a + freelistTotal fl := by
  induction fl generalizing a with
  | nil => simp [freelistTotal]
  | cons b rest ih =>
    simp only [freelistTotal, List.foldl_cons] at ih ⊢
    rw [ih, ih (0 + b.Amount)]
    ring

theorem freelistTotal_cons (b : storageBlob) (rest : List storageBlob) :
    freelistTotal (b :: rest) = b.Amount + freelistTotal rest := by
  simp only [freelistTotal, List.foldl_cons]
  rw [freelistTotal_aux]
  simp [freelistTotal]

theorem addBlob_total (fl : List storageBlob) (b : storageBlob) :
    freelistTotal (addBlob fl b) = freelistTotal fl + b.Amount := by
  induction fl with
  | nil => simp [addBlob, freelistTotal_cons, freelistTotal]
  | cons hd rest ih =>
    unfold addBlob
    by_cases h : hd.ContractId = b.ContractId
    · simp only [if_pos h]
      rw [freelistTotal_cons, freelistTotal_cons]
      dsimp
      ring
    · simp only [if_neg h]
      rw [freelistTotal_cons, freelistTotal_cons, ih]
      ring

theorem freelistTotal_set (fl : List storageBlob) (idx : Nat) (v : storageBlob)
    (h : idx < fl.length) :
    freelistTotal (fl.set idx v) =
      freelistTotal fl - (fl.getD idx default).Amount + v.Amount := by
  induction fl generalizing idx with
  | nil => simp at h
  | cons hd rest ih =>
    cases idx with
    | zero =>
      simp only [List.set, List.getD_cons_zero]
      rw [freelistTotal_cons, freelistTotal_cons]
      ring
    | succ n =>
      simp only [List.set, List.getD_cons_succ]
      rw [freelistTotal_cons, freelistTotal_cons, ih n (by simpa using h)]
      ring

theorem getD_set_ne (fl : List storageBlob) (idx j : Nat) (v : storageBlob)
    (h : j ≠ idx) : (fl.set idx v).getD j default = fl.getD j default := by
  simp [List.getD, List.getElem?_set_ne (Ne.symm h)]

theorem getD_set_self (fl : List storageBlob) (idx : Nat) (v : storageBlob)
    (h : idx < fl.length) : (fl.set idx v).getD idx default = v := by
  simp [List.getD, List.getElem?_set_self, h]

theorem findStorageLoop_spec (blobSize : Int) (need : Nat) :
    ∀ (fl : List storageBlob) (cands : List Nat) (i : Nat)
      (acc : List (Nat × storageBlob)) (fl2 : List storageBlob)
      (ps : List (Nat × storageBlob)),
      (∀ j ∈ cands, j < fl.length) →
      (cands ≠ [] → i < cands.length) →
      findStorageLoop blobSize fl cands i need acc = (fl2, ps) →
      fl2.length = fl.length ∧
      (∀ j, (fl2.getD j default).ProviderId = (fl.getD j default).ProviderId ∧
            (fl2.getD j default).ContractId = (fl.getD j default).ContractId ∧
            (fl2.getD j default).Addr = (fl.getD j default).Addr) ∧
      ps.length ≤ acc.length + need ∧
      freelistTotal fl2 + blobSize * ps.length
        = freelistTotal fl + blobSize * acc.length ∧
      (∀ pr ∈ ps,
         pr ∈ acc ∨ (pr.1 ∈ cands ∧ pr.2.Amount = blobSize ∧
           pr.2.ProviderId = (fl.getD pr.1 default).ProviderId ∧
           pr.2.ContractId = (fl.getD pr.1 default).ContractId ∧
           pr.2.Addr = (fl.getD pr.1 default).Addr)) := by
  induction need with
  | zero =>
    intro fl cands i acc fl2 ps hb hi heq
    simp only [findStorageLoop] at heq
    cases heq
    refine ⟨rfl, fun j => ⟨rfl, rfl, rfl⟩, by simp, by simp, fun pr hpr => ?_⟩
    exact Or.inl (List.mem_reverse.mp hpr)
  | succ n ih =>
    intro fl cands i acc fl2 ps hb hi heq
    simp only [findStorageLoop] at heq
    by_cases hc : cands.isEmpty
    · rw [if_pos hc] at heq
      cases heq
      refine ⟨rfl, fun j => ⟨rfl, rfl, rfl⟩, by simp, by simp, fun pr hpr => ?_⟩
      exact Or.inl (List.mem_reverse.mp hpr)
    · rw [if_neg hc] at heq
      have hne : cands ≠ [] := fun h => hc (by simp [h])
      have hilt : i < cands.length := hi hne
      have hmem : cands.getD i 0 ∈ cands := by
        rw [List.getD_eq_getElem?_getD, List.getElem?_eq_getElem hilt]
        exact List.getElem_mem hilt
      have hidxlt : cands.getD i 0 < fl.length := hb _ hmem
      set idx := cands.getD i 0 with hidxdef
      set src := fl.getD idx default with hsrcdef
      set newBlob : storageBlob :=
        { ProviderId := src.ProviderId, Amount := blobSize,
          Addr := src.Addr, ContractId := src.ContractId } with hnbdef
      set flB := fl.set idx { src with Amount := src.Amount - blobSize } with hflBdef
      set cands2 := if src.Amount - blobSize < blobSize then cands.eraseIdx i else cands
        with hc2def
      have hlenB : flB.length = fl.length := by simp [hflBdef]
      have hfieldsB : ∀ j, (flB.getD j default).ProviderId = (fl.getD j default).ProviderId ∧
          (flB.getD j default).ContractId = (fl.getD j default).ContractId ∧
          (flB.getD j default).Addr = (fl.getD j default).Addr := by
        intro j
        by_cases hj : j = idx
        · subst hj
          rw [hflBdef, getD_set_self fl idx _ hidxlt]
          exact ⟨rfl, rfl, rfl⟩
        · rw [hflBdef, getD_set_ne fl idx j _ hj]
          exact ⟨rfl, rfl, rfl⟩
      have htotB : freelistTotal flB = freelistTotal fl - blobSize := by
        rw [hflBdef, freelistTotal_set fl idx _ hidxlt]
        simp [hsrcdef]
      have hsub : cands2 ⊆ cands := by
        rw [hc2def]
        split
        · exact (List.eraseIdx_sublist cands i).subset
        · exact fun a ha => ha
      by_cases hc2 : cands2.isEmpty
      · rw [if_pos hc2] at heq
        injection heq with h1 h2
        subst h1
        subst h2
        refine ⟨hlenB, hfieldsB, by simp, ?_, fun pr hpr => ?_⟩
        · rw [htotB]
          simp only [List.length_reverse, List.length_cons]
          push_cast
          ring
        · rcases List.mem_cons.mp (List.mem_reverse.mp hpr) with h1 | h1
          · subst h1
            exact Or.inr ⟨hmem, rfl, rfl, rfl, rfl⟩
          · exact Or.inl h1
      · rw [if_neg hc2] at heq
        have hc2ne : cands2 ≠ [] := fun h => hc2 (by simp [h])
        have hc2pos : 0 < cands2.length := List.length_pos.mpr hc2ne
        have hrec := ih flB cands2 ((i + 1) % cands2.length) ((idx, newBlob) :: acc) fl2 ps
          (fun j hj => hlenB ▸ hb j (hsub hj))
          (fun _ => Nat.mod_lt _ hc2pos) heq
        obtain ⟨hr1, hr2, hr3, hr4, hr5⟩ := hrec
        refine ⟨hr1.trans hlenB, ?_, ?_, ?_, ?_⟩
        · intro j
          obtain ⟨ha, hb2, hc3⟩ := hr2 j
          obtain ⟨hd, he, hf⟩ := hfieldsB j
          exact ⟨ha.trans hd, hb2.trans he, hc3.trans hf⟩
        · simp only [List.length_cons] at hr3
          omega
        · rw [htotB] at hr4
          simp only [List.length_cons] at hr4
          push_cast at hr4 ⊢
          linarith
        · intro pr hpr
          rcases hr5 pr hpr with h1 | h1
          · rcases List.mem_cons.mp h1 with h2 | h2
            · right
              subst h2
              refine ⟨hmem, rfl, rfl, rfl, rfl⟩
            · exact Or.inl h2
          · right
            obtain ⟨hm, ham, hp1, hp2, hp3⟩ := h1
            obtain ⟨hq1, hq2, hq3⟩ := hfieldsB pr.1
            exact ⟨hsub hm, ham, hp1.trans hq1, hp2.trans hq2, hp3.trans hq3⟩

theorem filterMap_if_eq_filter_map (g : Nat → Nat) (P : Nat → Prop) [DecidablePred P] :
    ∀ l : List Nat,
      l.filterMap (fun step => if P (g step) then some (g step) else none) =
        (l.map g).filter (fun x => decide (P x)) := by
  intro l
  induction l with
  | nil => rfl
  | cons hd tl ih =>
    simp only [List.filterMap_cons, List.map_cons, List.filter_cons]
    by_cases h : P (g hd)
    · simp [h, ih]
    · simp [h, ih]

theorem findCandidates_eq (freelist : List storageBlob) (offline : List (String × Int))
    (blobSize : Int) (startIdx : Nat) :
    findCandidates freelist offline blobSize startIdx =
      if freelist.isEmpty then [] else
      ((List.range freelist.length).map
          (fun step => (startIdx + step) % freelist.length)).filter
        (fun idx => decide ((freelist.getD idx default).Amount ≥ blobSize ∧
          lookupAssoc offline (freelist.getD idx default).ProviderId = none)) := by
  unfold findCandidates
  by_cases h : freelist.isEmpty
  · simp [h]
  · simp only [if_neg h]
    exact filterMap_if_eq_filter_map
      (fun step => (startIdx + step) % freelist.length)
      (fun idx => (freelist.getD idx default).Amount ≥ blobSize ∧
        lookupAssoc offline (freelist.getD idx default).ProviderId = none)
      (List.range freelist.length)

theorem findCandidates_nodup (freelist : List storageBlob) (offline : List (String × Int))
    (blobSize : Int) (startIdx : Nat) :
    (findCandidates freelist offline blobSize startIdx).Nodup := by
  rw [findCandidates_eq]
  by_cases h : freelist.isEmpty
  · simp [h]
  · simp only [if_neg h]
    apply List.Nodup.filter
    apply List.Nodup.map_on _ (List.nodup_range _)
    intro a ha b hb hab
    rw [List.mem_range] at ha hb
    have h1 : (startIdx + a) % freelist.length = (startIdx + b) % freelist.length := hab
    have h2 : a % freelist.length = b % freelist.length :=
      Nat.ModEq.add_left_cancel' startIdx h1
    rw [Nat.mod_eq_of_lt ha, Nat.mod_eq_of_lt hb] at h2
    exact h2

theorem findCandidates_spec (freelist : List storageBlob) (offline : List (String × Int))
    (blobSize : Int) (startIdx : Nat) :
    ∀ idx ∈ findCandidates freelist offline blobSize startIdx,
      idx < freelist.length ∧ (freelist.getD idx default).Amount ≥ blobSize ∧
        lookupAssoc offline (freelist.getD idx default).ProviderId = none := by
  intro idx hidx
  rw [findCandidates_eq] at hidx
  by_cases h : freelist.isEmpty
  · simp [h] at hidx
  · simp only [if_neg h] at hidx
    have hpos : 0 < freelist.length := by
      cases freelist
      · simp at h
      · simp
    obtain ⟨hmem, hcond⟩ := List.mem_filter.mp hidx
    obtain ⟨step, hstep, hg⟩ := List.mem_map.mp hmem
    refine ⟨?_, of_decide_eq_true hcond |>.1, of_decide_eq_true hcond |>.2⟩
    rw [← hg]
    exact Nat.mod_lt _ hpos

theorem foldl_addBlob_total (ps : List (Nat × storageBlob)) :
    ∀ fl0 : List storageBlob,
      freelistTotal (ps.foldl (fun fl p => addBlob fl p.2) fl0) =
        freelistTotal fl0 + (ps.map (fun p => p.2.Amount)).sum := by
  induction ps with
  | nil => intro fl0; simp
  | cons hd tl ih =>
    intro fl0
    simp only [List.foldl_cons, List.map_cons, List.sum_cons]
    rw [ih, addBlob_total]
    ring

theorem sum_amounts_const (s : Int) :
    ∀ ps : List (Nat × storageBlob), (∀ pr ∈ ps, pr.2.Amount = s) →
      (ps.map (fun p => p.2.Amount)).sum = s * ps.length := by
  intro ps
  induction ps with
  | nil => intro _; simp
  | cons hd tl ih =>
    intro h
    simp only [List.map_cons, List.sum_cons, List.length_cons]
    rw [h hd (List.mem_cons_self hd tl), ih (fun pr hpr => h pr (List.mem_cons_of_mem hd hpr))]
    push_cast
    ring

/-- Claim C4: whenever `findStorage` fails (`InsufficientStorage`), the
freelist total after the call equals the total before it: every
decrement made while building the partial result is rolled back by
`addBlob` on the partial results. -/
theorem C4_freelist_conservation (fl : List storageBlob) (offline : List (String × Int))
    (n : Nat) (s : Int)
    (start : Nat) (kMin : Int) (fl2 : List storageBlob) (e : String)
    (herr : findStorage fl offline n s start kMin = (fl2, Except.error e)) :
    freelistTotal fl2 = freelistTotal fl := by
  unfold findStorage findStorageP at herr
  dsimp only at herr
  rcases hloop : findStorageLoop s fl (findCandidates fl offline s start) 0 n []
    with ⟨flL, ps⟩
  rw [hloop] at herr
  by_cases hlen : ps.length < n
  · simp only [if_pos hlen] at herr
    injection herr with h1 h2
    subst h1
    have hspec := findStorageLoop_spec s n fl (findCandidates fl offline s start) 0 [] flL ps
      (fun j hj => (findCandidates_spec fl offline s start j hj).1)
      (fun hne => List.length_pos.mpr hne)
      hloop
    obtain ⟨hl1, hl2, hl3, htot, hmem⟩ := hspec
    have hamounts : ∀ pr ∈ ps, pr.2.Amount = s := by
      intro pr hpr
      rcases hmem pr hpr with h | h
      · simp at h
      · exact h.2.1
    rw [foldl_addBlob_total, sum_amounts_const s ps hamounts]
    simp only [List.length_nil, Nat.cast_zero, mul_zero, add_zero] at htot
    linarith
  · simp only [if_neg hlen] at herr
    injection herr with h1 h2
    simp [Except.map] at h2

theorem findStorageP_ok_spec (fl : List storageBlob) (offline : List (String × Int))
    (n : Nat) (s : Int) (start : Nat) (kMin : Int) (fl2 : List storageBlob)
    (ps : List (Nat × storageBlob))
    (hok : findStorageP fl offline n s start kMin = (fl2, Except.ok ps)) :
    ps.length = n ∧
    ∀ pr ∈ ps, pr.1 ∈ findCandidates fl offline s start ∧ pr.2.Amount = s ∧
      (fl.getD pr.1 default).Amount ≥ s ∧
      lookupAssoc offline (fl.getD pr.1 default).ProviderId = none ∧
      pr.2.ProviderId = (fl.getD pr.1 default).ProviderId ∧
      pr.2.ContractId = (fl.getD pr.1 default).ContractId ∧
      pr.2.Addr = (fl.getD pr.1 default).Addr := by
  unfold findStorageP at hok
  dsimp only at hok
  rcases hloop : findStorageLoop s fl (findCandidates fl offline s start) 0 n []
    with ⟨flL, psL⟩
  rw [hloop] at hok
  have hspec := findStorageLoop_spec s n fl (findCandidates fl offline s start) 0 [] flL psL
    (fun j hj => (findCandidates_spec fl offline s start j hj).1)
    (fun hne => List.length_pos.mpr hne)
    hloop
  obtain ⟨hl1, hl2, hl3, htot, hmem⟩ := hspec
  by_cases hlen : psL.length < n
  · simp only [if_pos hlen] at hok
    injection hok with h1 h2
    simp at h2
  · simp only [if_neg hlen] at hok
    injection hok with h1 h2
    injection h2 with h3
    subst h3
    refine ⟨by simp at hl3; omega, ?_⟩
    intro pr hpr
    rcases hmem pr hpr with h | h
    · simp at h
    · obtain ⟨hc, ham, hp1, hp2, hp3⟩ := h
      obtain ⟨_, hamt, hlook⟩ := findCandidates_spec fl offline s start pr.1 hc
      exact ⟨hc, ham, hamt, hlook, hp1, hp2, hp3⟩

theorem lookupAssoc_setAssoc (m : List (String × Int)) (k : String) (v : Int) :
    lookupAssoc (setAssoc m k v) k = some v := by
  induction m with
  | nil => simp [setAssoc, lookupAssoc]
  | cons hd tl ih =>
    unfold setAssoc
    by_cases h : hd.1 = k
    · simp [h, lookupAssoc]
    · simp only [if_neg h]
      unfold lookupAssoc
      simp [h, ih]

theorem lookupAssoc_filter_keep (q : String × Int → Bool) (k : String) (t : Int) :
    ∀ m : List (String × Int), lookupAssoc m k = some t → q (k, t) = true →
      lookupAssoc (m.filter q) k = some t := by
  intro m
  induction m with
  | nil => intro h _; simp [lookupAssoc] at h
  | cons hd tl ih =>
    intro h hq
    unfold lookupAssoc at h
    by_cases hk : hd.1 = k
    · simp only [if_pos hk] at h
      injection h with hv
      have hhd : hd = (k, t) := by
        cases hd
        simp at hk hv
        simp [hk, hv]
      rw [List.filter_cons, hhd]
      simp only [hq, if_pos]
      simp [lookupAssoc]
    · simp only [if_neg hk] at h
      rw [List.filter_cons]
      by_cases hqh : q hd
      · simp only [hqh, if_pos]
        unfold lookupAssoc
        simp [hk]
        exact ih h hq
      · simp only [hqh]
        simp
        exact ih h hq

theorem maybeUpdateCache_offline (st : SMState) (u : Option (List storageBlob))
    (js : List Nat) (now updateFreq : Int) :
    (maybeUpdateCache st u js now updateFreq).offlinePvdrs = st.offlinePvdrs := by
  unfold maybeUpdateCache updateCache
  split
  · cases u <;> rfl
  · split
    · cases u <;> rfl
    · rfl

theorem findStorageOp_ok_offline (st : SMState) (u : Option (List storageBlob)) (js : List Nat)
    (now updateFreq : Int) (nblobs : Nat) (blobSize : Int) (startIdx : Nat) (kMin : Int)
    (pvdr : String) (t : Int) (blobs : List storageBlob)
    (hoff : lookupAssoc st.offlinePvdrs pvdr = some t)
    (hfut : now < t)
    (hok : (FindStorageOp st u js now updateFreq nblobs blobSize startIdx kMin).2 =
      Except.ok blobs) :
    ∀ b ∈ blobs, b.ProviderId ≠ pvdr := by
  intro b hb
  unfold FindStorageOp at hok
  dsimp only at hok
  rw [maybeUpdateCache_offline] at hok
  set st1 := maybeUpdateCache st u js now updateFreq with hst1
  set off2 := updateOfflineProviders st.offlinePvdrs now with hoff2
  have hkeep : lookupAssoc off2 pvdr = some t := by
    rw [hoff2]
    unfold updateOfflineProviders
    apply lookupAssoc_filter_keep _ _ _ _ hoff
    simp
    omega
  unfold findStorage at hok
  dsimp only at hok
  rcases hp : findStorageP st1.freelist off2 nblobs blobSize startIdx kMin with ⟨flr, res⟩
  rw [hp] at hok
  cases res with
  | error e => simp [Except.map] at hok
  | ok ps =>
    simp only [Except.map] at hok
    injection hok with hmap
    obtain ⟨hlenps, hspec⟩ := findStorageP_ok_spec _ _ _ _ _ _ _ _ hp
    rw [← hmap] at hb
    obtain ⟨pr, hpr, hpr2⟩ := List.mem_map.mp hb
    obtain ⟨_, _, _, hlook, hp1, _, _⟩ := hspec pr hpr
    intro hcontra
    rw [hpr2] at hp1
    rw [hcontra] at hp1
    rw [← hp1] at hlook
    rw [hkeep] at hlook
    exact Option.noConfusion hlook

theorem markOffline_max (off : List (String × Int)) (id : String) (untilT : Int) :
    lookupAssoc (MarkProvidersOffline off [id] untilT) id =
      some (match lookupAssoc off id with
            | none => untilT
            | some t0 => max t0 untilT) := by
  unfold MarkProvidersOffline
  simp only [List.foldl_cons, List.foldl_nil]
  rw [lookupAssoc_setAssoc]
  congr 1
  cases h : lookupAssoc off id with
  | none => simp
  | some t0 =>
    simp only
    by_cases h2 : t0 < untilT
    · simp only [if_pos h2]
      exact (max_eq_right (le_of_lt h2)).symm
    · simp only [if_neg h2]
      exact (max_eq_left (le_of_not_lt h2)).symm

theorem findStorageLoop_distinct (blobSize : Int) (need : Nat) :
    ∀ (fl : List storageBlob) (cands : List Nat) (i : Nat)
      (acc : List (Nat × storageBlob)),
      (∀ j ∈ cands, j < fl.length) →
      cands.Nodup →
      i + need ≤ cands.length →
      (∀ t, i ≤ t → t < i + need →
        (fl.getD (cands.getD t 0) default).Amount ≥ 2 * blobSize) →
      ((findStorageLoop blobSize fl cands i need acc).2.map Prod.fst) =
        (acc.reverse.map Prod.fst) ++ (cands.drop i).take need := by
  induction need with
  | zero =>
    intro fl cands i acc hb hnd hle hamt
    simp [findStorageLoop]
  | succ n ih =>
    intro fl cands i acc hb hnd hle hamt
    have hilt : i < cands.length := by omega
    have hne : ¬ cands.isEmpty := by
      cases cands
      · simp at hilt
      · simp
    simp only [findStorageLoop, if_neg hne]
    have hmem : cands.getD i 0 ∈ cands := by
      rw [List.getD_eq_getElem?_getD, List.getElem?_eq_getElem hilt]
      exact List.getElem_mem hilt
    have hidxlt : cands.getD i 0 < fl.length := hb _ hmem
    have hbig : (fl.getD (cands.getD i 0) default).Amount ≥ 2 * blobSize :=
      hamt i (le_refl i) (by omega)
    have hnoerase :
        ¬ (fl.getD (cands.getD i 0) default).Amount - blobSize < blobSize := by omega
    simp only [if_neg hnoerase, if_neg hne]
    have hdrop : cands.drop i = cands.getD i 0 :: cands.drop (i + 1) := by
      rw [List.getD_eq_getElem?_getD, List.getElem?_eq_getElem hilt]
      exact List.drop_eq_getElem_cons hilt
    by_cases hlast : i + 1 < cands.length
    · rw [Nat.mod_eq_of_lt hlast]
      rw [ih (fl.set (cands.getD i 0)
            { fl.getD (cands.getD i 0) default with
                Amount := (fl.getD (cands.getD i 0) default).Amount - blobSize })
          cands (i + 1) _ (fun j hj => by rw [List.length_set]; exact hb j hj) hnd
          (by omega) ?later]
      · rw [hdrop]
        simp [List.take_cons]
      · intro t ht1 ht2
        have htlt : t < cands.length := by omega
        have htne : cands.getD t 0 ≠ cands.getD i 0 := by
          rw [List.getD_eq_getElem?_getD, List.getElem?_eq_getElem htlt,
            List.getD_eq_getElem?_getD, List.getElem?_eq_getElem hilt]
          simp only [Option.getD_some]
          intro hcontra
          have heq := (@List.Nodup.getElem_inj_iff _ cands hnd t htlt i hilt).mp hcontra
          omega
        rw [getD_set_ne _ _ _ _ htne]
        exact hamt t (by omega) (by omega)
    · have hieq : i + 1 = cands.length := by omega
      have hneed0 : n = 0 := by omega
      subst hneed0
      have hmod : (i + 1) % cands.length = 0 := by
        rw [hieq]
        exact Nat.mod_self _
      rw [hmod]
      simp only [findStorageLoop]
      rw [hdrop]
      have : cands.drop (i + 1) = [] := by
        apply List.drop_eq_nil_of_le
        omega
      rw [this]
      simp

/-- Claim C5 (amended): a successful `findStorage` returns exactly `n`
blobs, each of `Amount = s`, each drawn from a candidate freelist entry
whose `Amount` was at least `s`; the blobs come from distinct freelist
entries whenever at least `n` candidates exist AND every candidate
holds at least `2 * s` (so that no candidate is exhausted during the
first `n` draws).  Without the latter condition, removing an exhausted
candidate makes the cursor skip the entry that slid into its slot, and
an earlier entry can be drawn again (see the counterexample). -/
theorem C5_find_storage_amended (fl : List storageBlob) (offline : List (String × Int))
    (n : Nat) (s : Int) (start : Nat) (kMin : Int) (fl2 : List storageBlob)
    (ps : List (Nat × storageBlob))
    (hok : findStorageP fl offline n s start kMin = (fl2, Except.ok ps)) :
    ps.length = n ∧
    (∀ pr ∈ ps, pr.1 ∈ findCandidates fl offline s start ∧ pr.2.Amount = s ∧
      (fl.getD pr.1 default).Amount ≥ s ∧
      pr.2.ProviderId = (fl.getD pr.1 default).ProviderId ∧
      pr.2.ContractId = (fl.getD pr.1 default).ContractId ∧
      pr.2.Addr = (fl.getD pr.1 default).Addr) ∧
    (n ≤ (findCandidates fl offline s start).length →
      (∀ idx ∈ findCandidates fl offline s start,
        (fl.getD idx default).Amount ≥ 2 * s) →
      (ps.map Prod.fst).Nodup) := by
  obtain ⟨hlen, hspec⟩ := findStorageP_ok_spec _ _ _ _ _ _ _ _ hok
  refine ⟨hlen, ?_, ?_⟩
  · intro pr hpr
    obtain ⟨h1, h2, h3, _, h5, h6, h7⟩ := hspec pr hpr
    exact ⟨h1, h2, h3, h5, h6, h7⟩
  · intro hcle hamts
    set cands := findCandidates fl offline s start with hcands
    unfold findStorageP at hok
    dsimp only at hok
    rcases hloop : findStorageLoop s fl cands 0 n [] with ⟨flL, psL⟩
    rw [← hcands, hloop] at hok
    have hdist := findStorageLoop_distinct s n fl cands 0 []
      (fun j hj => (findCandidates_spec fl offline s start j hj).1)
      (findCandidates_nodup fl offline s start)
      (by omega)
      (by
        intro t _ ht2
        have htlt : t < cands.length := by omega
        have hmemt : cands.getD t 0 ∈ cands := by
          rw [List.getD_eq_getElem?_getD, List.getElem?_eq_getElem htlt]
          exact List.getElem_mem htlt
        exact hamts _ hmemt)
    rw [hloop] at hdist
    by_cases hlt : psL.length < n
    · simp only [if_pos hlt] at hok
      injection hok with h1 h2
      simp at h2
    · simp only [if_neg hlt] at hok
      injection hok with h1 h2
      injection h2 with h3
      subst h3
      simp only [List.reverse_nil, List.map_nil, List.nil_append, List.drop_zero] at hdist
      rw [hdist]
      exact List.Nodup.sublist (List.take_sublist n cands)
        (findCandidates_nodup fl offline s start)

theorem pfdLoop_stop (blocks : List Block) (fetch : Nat → Except String Unit) (k m : Nat) :
    ∀ (i succ fail : Nat) (infos : List BlockDownloadInfo),
      succ ≤ k → fail ≤ m + 1 → ¬(succ = k ∧ fail = m + 1) →
      ((pfdLoop blocks fetch k m i succ fail infos).2.1 = k ∧
       (pfdLoop blocks fetch k m i succ fail infos).2.2 ≤ m) ∨
      ((pfdLoop blocks fetch k m i succ fail infos).2.2 = m + 1 ∧
       (pfdLoop blocks fetch k m i succ fail infos).2.1 < k) := by
  intro i succ fail infos
  induction i, succ, fail, infos using pfdLoop.induct blocks fetch k m with
  | case1 i succ fail infos h blk u hfeq ih =>
    intro h1 h2 h3
    obtain ⟨ha, hb⟩ := h
    have hstep : pfdLoop blocks fetch k m i succ fail infos =
        pfdLoop blocks fetch k m (i + 1) (succ + 1) fail
          (infos ++ [mkBlockInfo (blocks.getD i default) none]) := by
      rw [pfdLoop, dif_pos ⟨ha, hb⟩, hfeq]
    rw [hstep]
    exact ih (by omega) (by omega) (by omega)
  | case2 i succ fail infos h blk e hfeq ih =>
    intro h1 h2 h3
    obtain ⟨ha, hb⟩ := h
    have hstep : pfdLoop blocks fetch k m i succ fail infos =
        pfdLoop blocks fetch k m (i + 1) succ (fail + 1)
          (infos ++ [mkBlockInfo (blocks.getD i default) (some e)]) := by
      rw [pfdLoop, dif_pos ⟨ha, hb⟩, hfeq]
    rw [hstep]
    exact ih (by omega) (by omega) (by omega)
  | case3 i succ fail infos h =>
    intro h1 h2 h3
    have hstep : pfdLoop blocks fetch k m i succ fail infos = (infos, succ, fail) := by
      rw [pfdLoop, dif_neg h]
    rw [hstep]
    simp only
    omega

theorem pfdLoop_trace (blocks : List Block) (fetch : Nat → Except String Unit) (k m : Nat) :
    ∀ (i succ fail : Nat) (infos : List BlockDownloadInfo),
      succ ≤ (pfdLoop blocks fetch k m i succ fail infos).2.1 ∧
      fail ≤ (pfdLoop blocks fetch k m i succ fail infos).2.2 ∧
      (pfdLoop blocks fetch k m i succ fail infos).1 =
        infos ++ (List.range' i
            (((pfdLoop blocks fetch k m i succ fail infos).2.1 - succ) +
             ((pfdLoop blocks fetch k m i succ fail infos).2.2 - fail))).map
          (fun j => mkBlockInfo (blocks.getD j default) (errOf (fetch j))) := by
  intro i succ fail infos
  induction i, succ, fail, infos using pfdLoop.induct blocks fetch k m with
  | case1 i succ fail infos h blk u hfeq ih =>
    obtain ⟨ha, hb⟩ := h
    have hstep : pfdLoop blocks fetch k m i succ fail infos =
        pfdLoop blocks fetch k m (i + 1) (succ + 1) fail
          (infos ++ [mkBlockInfo blk none]) := by
      rw [pfdLoop, dif_pos ⟨ha, hb⟩, hfeq]
    rw [hstep]
    obtain ⟨ih1, ih2, ih3⟩ := ih
    refine ⟨by omega, ih2, ?_⟩
    rw [ih3]
    have hd : (pfdLoop blocks fetch k m (i + 1) (succ + 1) fail
          (infos ++ [mkBlockInfo blk none])).2.1 - succ +
        ((pfdLoop blocks fetch k m (i + 1) (succ + 1) fail
          (infos ++ [mkBlockInfo blk none])).2.2 - fail) =
        ((pfdLoop blocks fetch k m (i + 1) (succ + 1) fail
          (infos ++ [mkBlockInfo blk none])).2.1 - (succ + 1) +
        ((pfdLoop blocks fetch k m (i + 1) (succ + 1) fail
          (infos ++ [mkBlockInfo blk none])).2.2 - fail)) + 1 := by
      omega
    rw [hd, List.range'_succ, List.map_cons, List.append_assoc, hfeq]
    simp only [errOf, List.singleton_append]
  | case2 i succ fail infos h blk e hfeq ih =>
    obtain ⟨ha, hb⟩ := h
    have hstep : pfdLoop blocks fetch k m i succ fail infos =
        pfdLoop blocks fetch k m (i + 1) succ (fail + 1)
          (infos ++ [mkBlockInfo blk (some e)]) := by
      rw [pfdLoop, dif_pos ⟨ha, hb⟩, hfeq]
    rw [hstep]
    obtain ⟨ih1, ih2, ih3⟩ := ih
    refine ⟨ih1, by omega, ?_⟩
    rw [ih3]
    have hd : (pfdLoop blocks fetch k m (i + 1) succ (fail + 1)
          (infos ++ [mkBlockInfo blk (some e)])).2.1 - succ +
        ((pfdLoop blocks fetch k m (i + 1) succ (fail + 1)
          (infos ++ [mkBlockInfo blk (some e)])).2.2 - fail) =
        ((pfdLoop blocks fetch k m (i + 1) succ (fail + 1)
          (infos ++ [mkBlockInfo blk (some e)])).2.1 - succ +
        ((pfdLoop blocks fetch k m (i + 1) succ (fail + 1)
          (infos ++ [mkBlockInfo blk (some e)])).2.2 - (fail + 1))) + 1 := by
      omega
    rw [hd, List.range'_succ, List.map_cons, List.append_assoc, hfeq]
    simp only [errOf, List.singleton_append]
  | case3 i succ fail infos h =>
    have hstep : pfdLoop blocks fetch k m i succ fail infos = (infos, succ, fail) := by
      rw [pfdLoop, dif_neg h]
    rw [hstep]
    simp


/-! ## Claim theorems, counterexamples and witnesses. -/

theorem take_map_id (l : List Block) (n : Nat) (h : n ≤ l.length) :
    (l.take n).map Block.ID =
      (List.range n).map (fun j => (l.getD j default).ID) := by
  apply List.ext_getElem
  · simp
    omega
  · intro i h1 h2
    simp only [List.getElem_map, List.getElem_take, List.getElem_range]
    congr 1
    have hi : i < l.length := by
      simp at h1
      omega
    rw [List.getD_eq_getElem?_getD, List.getElem?_eq_getElem hi]
    rfl

theorem shardSize_bounds (L k : Nat) (hk : 1 ≤ k) :
    L ≤ shardSize L k * k ∧ shardSize L k * k ≤ L + k - 1 := by
  have hmod := Nat.div_add_mod (L + k - 1) k
  have hlt : (L + k - 1) % k < k := Nat.mod_lt _ (by omega)
  unfold shardSize
  have hcomm : (L + k - 1) / k * k = k * ((L + k - 1) / k) := Nat.mul_comm _ _
  rw [hcomm]
  generalize hA : k * ((L + k - 1) / k) = A at hmod
  omega

theorem keySelFold_stable (rid : String) :
    ∀ (l : List Permission) (acc : String × String),
      (∀ q ∈ l, q.RenterId = rid → (q.AesKey, q.AesIV) = acc) →
      l.foldl (fun acc p => if p.RenterId = rid then (p.AesKey, p.AesIV) else acc) acc =
        acc := by
  intro l
  induction l with
  | nil => intro acc _; rfl
  | cons hd tl ih =>
    intro acc h
    simp only [List.foldl_cons]
    by_cases hh : hd.RenterId = rid
    · rw [if_pos hh, h hd (List.mem_cons_self hd tl) hh]
      exact ih acc (fun q hq hqr => h q (List.mem_cons_of_mem hd hq) hqr)
    · rw [if_neg hh]
      exact ih acc (fun q hq hqr => h q (List.mem_cons_of_mem hd hq) hqr)

theorem keySelFold_unique (rid : String) :
    ∀ (l : List Permission) (p : Permission), p ∈ l → p.RenterId = rid →
      (∀ q ∈ l, q.RenterId = rid → q = p) →
      ∀ acc : String × String,
        l.foldl (fun acc p => if p.RenterId = rid then (p.AesKey, p.AesIV) else acc) acc =
          (p.AesKey, p.AesIV) := by
  intro l
  induction l with
  | nil => intro p hp; simp at hp
  | cons hd tl ih =>
    intro p hp hprid huniq acc
    simp only [List.foldl_cons]
    by_cases hh : hd.RenterId = rid
    · rw [if_pos hh]
      have hhd : hd = p := huniq hd (List.mem_cons_self hd tl) hh
      subst hhd
      exact keySelFold_stable rid tl _ (fun q hq hqr => by
        rw [huniq q (List.mem_cons_of_mem hd hq) hqr])
    · rw [if_neg hh]
      have hptl : p ∈ tl := by
        rcases List.mem_cons.mp hp with h1 | h1
        · exact absurd (h1 ▸ hprid) hh
        · exact h1
      exact ih p hptl hprid (fun q hq hqr => huniq q (List.mem_cons_of_mem hd hq) hqr) acc

/-- Claim C1: with exactly `k + m` blocks, the fetch loop requests
blocks in stored order (the per-block records are exactly the first
`successes + failures` blocks with each block's fetch error recorded),
stops as soon as it reaches `k` successes or more than `m` failures,
and the version download fails with the `InsufficientShards` error
exactly when fewer than `k` fetches succeeded.  `finish` abstracts
`finishDownload`, whose own errors differ from that message. -/
theorem C1_download_budget (v : Version) (fetch : Nat → Except String Unit) (finish : Except String Unit)
    (hlen : v.Blocks.length = v.NumDataBlocks + v.NumParityBlocks)
    (hfin : finish ≠ Except.error insufficientShardsMsg) :
    (((pfdRun v fetch).2.1 = v.NumDataBlocks ∧
        (pfdRun v fetch).2.2 ≤ v.NumParityBlocks) ∨
      ((pfdRun v fetch).2.2 = v.NumParityBlocks + 1 ∧
        (pfdRun v fetch).2.1 < v.NumDataBlocks)) ∧
    (pfdRun v fetch).1 =
      (List.range ((pfdRun v fetch).2.1 + (pfdRun v fetch).2.2)).map
        (fun j => mkBlockInfo (v.Blocks.getD j default) (errOf (fetch j))) ∧
    (pfdRun v fetch).1.map BlockDownloadInfo.BlockId =
      (v.Blocks.take ((pfdRun v fetch).2.1 + (pfdRun v fetch).2.2)).map Block.ID ∧
    (performFileDownload v fetch finish = Except.error insufficientShardsMsg ↔
      (pfdRun v fetch).2.1 < v.NumDataBlocks) := by
  have hstop := pfdLoop_stop v.Blocks fetch v.NumDataBlocks v.NumParityBlocks 0 0 0 []
    (Nat.zero_le _) (Nat.zero_le _) (by omega)
  have htrace := pfdLoop_trace v.Blocks fetch v.NumDataBlocks v.NumParityBlocks 0 0 0 []
  obtain ⟨ht1, ht2, ht3⟩ := htrace
  have hrun : pfdRun v fetch =
      pfdLoop v.Blocks fetch v.NumDataBlocks v.NumParityBlocks 0 0 0 [] := rfl
  rw [hrun]
  have hstop2 := hstop
  refine ⟨hstop, ?_, ?_, ?_⟩
  · rw [ht3]
    simp [List.range_eq_range']
  · have hn : (pfdLoop v.Blocks fetch v.NumDataBlocks v.NumParityBlocks 0 0 0 []).2.1 +
        (pfdLoop v.Blocks fetch v.NumDataBlocks v.NumParityBlocks 0 0 0 []).2.2 ≤
        v.Blocks.length := by
      rcases hstop with ⟨h1, h2⟩ | ⟨h1, h2⟩ <;> omega
    rw [ht3, take_map_id _ _ hn]
    simp [List.range_eq_range', mkBlockInfo]
  · unfold performFileDownload
    rw [← hrun]
    dsimp only
    by_cases hlt : (pfdRun v fetch).2.1 < v.NumDataBlocks
    · simp [hlt]
    · simp only [if_neg hlt]
      cases finish with
      | ok u =>
        simp only [iff_iff_implies_and_implies]
        constructor
        · intro h
          exact absurd h (by simp)
        · intro h
          exact absurd h hlt
      | error e =>
        have hne : e ≠ insufficientShardsMsg := by
          intro hcontra
          exact hfin (by rw [hcontra])
        simp [hne, hlt]

theorem C1_witness :
    (((pfdRun vWit fetchWit).2.1 = vWit.NumDataBlocks ∧
        (pfdRun vWit fetchWit).2.2 ≤ vWit.NumParityBlocks) ∨
      ((pfdRun vWit fetchWit).2.2 = vWit.NumParityBlocks + 1 ∧
        (pfdRun vWit fetchWit).2.1 < vWit.NumDataBlocks)) ∧
    (pfdRun vWit fetchWit).1 =
      (List.range ((pfdRun vWit fetchWit).2.1 + (pfdRun vWit fetchWit).2.2)).map
        (fun j => mkBlockInfo (vWit.Blocks.getD j default) (errOf (fetchWit j))) ∧
    (pfdRun vWit fetchWit).1.map BlockDownloadInfo.BlockId =
      (vWit.Blocks.take ((pfdRun vWit fetchWit).2.1 + (pfdRun vWit fetchWit).2.2)).map
        Block.ID ∧
    (performFileDownload vWit fetchWit (Except.ok ()) =
        Except.error insufficientShardsMsg ↔
      (pfdRun vWit fetchWit).2.1 < vWit.NumDataBlocks) :=
  C1_download_budget vWit fetchWit (Except.ok ()) (by decide) (by decide)

/-- Claim C2: a block whose transport succeeded is accepted exactly
when the delivered byte count equals `Block.Size` and the recomputed
hash equals `Block.Sha256Hash`; a delivered stream whose hash differs
from the recorded one (e.g. a bit-flipped stream, for any
collision-free pair) is rejected. -/
theorem C2_block_hash_gating (H : List Nat → String) (block : Block) (bytes : List Nat) :
    (downloadBlock H block (Except.ok bytes) = Except.ok () ↔
      (bytes.length : Int) = block.Size ∧ H bytes = block.Sha256Hash) ∧
    (∀ orig : List Nat, block.Sha256Hash = H orig → H bytes ≠ H orig →
      downloadBlock H block (Except.ok bytes) ≠ Except.ok ()) := by
  unfold downloadBlock
  constructor
  · constructor
    · intro h
      by_cases hs : (bytes.length : Int) = block.Size
      · by_cases hh : H bytes = block.Sha256Hash
        · exact ⟨hs, hh⟩
        · simp [hs, hh] at h
      · simp [hs] at h
    · intro ⟨hs, hh⟩
      simp [hs, hh]
  · intro orig hrec hne h
    by_cases hs : (bytes.length : Int) = block.Size
    · by_cases hh : H bytes = block.Sha256Hash
      · exact hne (hrec ▸ hh)
      · simp [hs, hh] at h
    · simp [hs] at h

theorem C2_witness :
    downloadBlock hashWit blockWit (Except.ok [7, 9]) = Except.ok () ∧
    downloadBlock hashWit blockWit (Except.ok [7, 8, 9]) ≠ Except.ok () :=
  ⟨(C2_block_hash_gating hashWit blockWit [7, 9]).1.mpr ⟨by decide, by decide⟩,
   (C2_block_hash_gating hashWit blockWit [7, 8, 9]).2 [7, 9] (by decide) (by decide)⟩

/-- Claim C3 counterexample: a caller who owns the file but whose
record holds empty wrapped-key strings gets the `NotPermitted` error,
although the key-selection rule says the owner's `AesKey`/`AesIV` are
used (and decoding them succeeds under these oracles). -/
theorem C3_counterexample :
    decryptEncryptionKeys (fun _ => Except.ok []) (fun bs => Except.ok bs) "A"
      { ID := "f1", OwnerID := "A", Name := "x", IsDir := false, AesKey := "",
        AesIV := "", AccessList := [], Versions := [] } =
      Except.error notPermittedMsg ∧
    decryptPair (fun _ => Except.ok []) (fun bs => Except.ok bs) "" "" =
      Except.ok ([], []) := by
  exact ⟨rfl, rfl⟩

/-- Claim C3 (amended): key recovery follows the key-selection rule
provided the selected wrapped key and IV strings are nonempty: the
owner's fields are used when the caller owns the file, the unique
matching access-list entry's fields otherwise, and when no entry
applies the call fails with the `NotPermitted` error.  An owner or
matching entry whose wrapped key or IV is the empty string also fails
with the `NotPermitted` error (see the counterexample). -/
theorem C3_key_selection_amended (b64decode : String → Except String (List Nat))
    (rsaDecrypt : List Nat → Except String (List Nat)) (rid : String) (f : File) :
    (f.OwnerID = rid → f.AesKey ≠ "" → f.AesIV ≠ "" →
      decryptEncryptionKeys b64decode rsaDecrypt rid f =
        decryptPair b64decode rsaDecrypt f.AesKey f.AesIV) ∧
    (f.OwnerID ≠ rid → ∀ p ∈ f.AccessList, p.RenterId = rid →
      (∀ q ∈ f.AccessList, q.RenterId = rid → q = p) →
      p.AesKey ≠ "" → p.AesIV ≠ "" →
      decryptEncryptionKeys b64decode rsaDecrypt rid f =
        decryptPair b64decode rsaDecrypt p.AesKey p.AesIV) ∧
    (f.OwnerID ≠ rid → (∀ q ∈ f.AccessList, q.RenterId ≠ rid) →
      decryptEncryptionKeys b64decode rsaDecrypt rid f =
        Except.error notPermittedMsg) := by
  refine ⟨?_, ?_, ?_⟩
  · intro howner hk hiv
    unfold decryptEncryptionKeys
    rw [if_pos howner]
    simp only
    rw [if_neg (by simp [hk, hiv])]
  · intro howner p hp hprid huniq hk hiv
    unfold decryptEncryptionKeys
    rw [if_neg howner]
    simp only
    rw [keySelFold_unique rid f.AccessList p hp hprid huniq]
    simp only
    rw [if_neg (by simp [hk, hiv])]
  · intro howner hnone
    unfold decryptEncryptionKeys
    rw [if_neg howner]
    simp only
    rw [keySelFold_stable rid f.AccessList ("", "") (fun q hq hqr => absurd hqr (hnone q hq))]
    simp

theorem C3_witness :
    decryptEncryptionKeys b64Wit rsaWit "A" fWit =
      decryptPair b64Wit rsaWit fWit.AesKey fWit.AesIV :=
  (C3_key_selection_amended b64Wit rsaWit "A" fWit).1 (by decide) (by decide) (by decide)

theorem C4_witness :
    freelistTotal [{ ProviderId := "p0", Addr := "a0", Amount := 20, ContractId := "c0" }] =
      freelistTotal [{ ProviderId := "p0", Addr := "a0", Amount := 20, ContractId := "c0" }] :=
  C4_freelist_conservation
    [{ ProviderId := "p0", Addr := "a0", Amount := 20, ContractId := "c0" }] [] 5 10 0 1
    [{ ProviderId := "p0", Addr := "a0", Amount := 20, ContractId := "c0" }]
    "Cannot find enough storage." (by decide)

/-- Claim C5 counterexample: with three candidate entries (amounts
50, 10, 50) and a request for three blobs of size 10, the middle
candidate is exhausted after its draw; the removal plus the cursor
increment skips the entry that slid into its slot, so entry 0 is drawn
twice even though three distinct candidates existed. -/
theorem C5_counterexample :
    (findCandidates
      [{ ProviderId := "p0", Addr := "a0", Amount := 50, ContractId := "c0" },
       { ProviderId := "p1", Addr := "a1", Amount := 10, ContractId := "c1" },
       { ProviderId := "p2", Addr := "a2", Amount := 50, ContractId := "c2" }]
      [] 10 0).length = 3 ∧
    (findStorageP
        [{ ProviderId := "p0", Addr := "a0", Amount := 50, ContractId := "c0" },
         { ProviderId := "p1", Addr := "a1", Amount := 10, ContractId := "c1" },
         { ProviderId := "p2", Addr := "a2", Amount := 50, ContractId := "c2" }]
        [] 3 10 0 1).2 =
      Except.ok
        [(0, { ProviderId := "p0", Addr := "a0", Amount := 10, ContractId := "c0" }),
         (1, { ProviderId := "p1", Addr := "a1", Amount := 10, ContractId := "c1" }),
         (0, { ProviderId := "p0", Addr := "a0", Amount := 10, ContractId := "c0" })] ∧
    ¬ (([0, 1, 0] : List Nat)).Nodup := by decide

theorem C5_witness :
    ps5Wit.length = 2 ∧
    (∀ pr ∈ ps5Wit, pr.1 ∈ findCandidates fl5Wit [] 10 0 ∧ pr.2.Amount = 10 ∧
      (fl5Wit.getD pr.1 default).Amount ≥ 10 ∧
      pr.2.ProviderId = (fl5Wit.getD pr.1 default).ProviderId ∧
      pr.2.ContractId = (fl5Wit.getD pr.1 default).ContractId ∧
      pr.2.Addr = (fl5Wit.getD pr.1 default).Addr) ∧
    (2 ≤ (findCandidates fl5Wit [] 10 0).length →
      (∀ idx ∈ findCandidates fl5Wit [] 10 0,
        (fl5Wit.getD idx default).Amount ≥ 2 * 10) →
      (ps5Wit.map Prod.fst).Nodup) :=
  C5_find_storage_amended fl5Wit [] 2 10 0 1
    [{ ProviderId := "p0", Addr := "a0", Amount := 40, ContractId := "c0" },
     { ProviderId := "p1", Addr := "a1", Amount := 40, ContractId := "c1" }]
    ps5Wit (by decide)

/-- Claim C6: a provider marked offline with a release time strictly
later than the clock never contributes a blob to `FindStorage`'s
result, and `MarkProvidersOffline` keeps the later of an existing
release time and the new one. -/
theorem C6_offline_honoring (st : SMState) (u : Option (List storageBlob)) (js : List Nat)
    (now updateFreq : Int) (nblobs : Nat) (blobSize : Int) (startIdx : Nat) (kMin : Int)
    (pvdr : String) (t : Int) (blobs : List storageBlob)
    (hoff : lookupAssoc st.offlinePvdrs pvdr = some t)
    (hfut : now < t)
    (hok : (FindStorageOp st u js now updateFreq nblobs blobSize startIdx kMin).2 =
      Except.ok blobs) :
    (∀ b ∈ blobs, b.ProviderId ≠ pvdr) ∧
    (∀ off id untilT, lookupAssoc (MarkProvidersOffline off [id] untilT) id =
      some (match lookupAssoc off id with
            | none => untilT
            | some t0 => max t0 untilT)) :=
  ⟨findStorageOp_ok_offline st u js now updateFreq nblobs blobSize startIdx kMin pvdr t
      blobs hoff hfut hok,
   fun off id untilT => markOffline_max off id untilT⟩

theorem C6_witness :
    (∀ b ∈ [({ ProviderId := "p1", Addr := "a1", Amount := 10, ContractId := "c1" } : storageBlob),
            { ProviderId := "p2", Addr := "a2", Amount := 10, ContractId := "c2" }],
        b.ProviderId ≠ "p0") ∧
    (∀ off id untilT, lookupAssoc (MarkProvidersOffline off [id] untilT) id =
      some (match lookupAssoc off id with
            | none => untilT
            | some t0 => max t0 untilT)) :=
  C6_offline_honoring stWit none [] 50 1000 2 10 0 1 "p0" 100
    [{ ProviderId := "p1", Addr := "a1", Amount := 10, ContractId := "c1" },
     { ProviderId := "p2", Addr := "a2", Amount := 10, ContractId := "c2" }]
    (by decide) (by decide) (by decide)

/-- Claim C7 counterexample: for `L = 4`, `k = 3` the spec's own
formulas give `s = 2` and `padding = 2`, so `padding < s` fails. -/
theorem C7_counterexample :
    shardSize 4 3 = 2 ∧ paddingBytes 4 3 = 2 ∧
      ¬ (paddingBytes 4 3 < shardSize 4 3) := by decide

/-- Claim C7 (amended): for `L > 0` and `k ≥ 1` the choice
`s = ceil(L / k)`, `padding = s * k - L` satisfies `L ≤ s * k`,
`s * k - L = padding` and `0 ≤ padding < k`; the spec's stronger bound
`padding < s` fails whenever `L < (k - 1) * s + 1` (see the
counterexample). -/
theorem C7_padding_amended (L k : Nat) (hL : 0 < L) (hk : 1 ≤ k) :
    L ≤ shardSize L k * k ∧ shardSize L k * k - L = paddingBytes L k ∧
      paddingBytes L k < k := by
  have h := shardSize_bounds L k hk
  unfold paddingBytes
  omega

theorem C7_witness :
    10 ≤ shardSize 10 3 * 3 ∧ shardSize 10 3 * 3 - 10 = paddingBytes 10 3 ∧
      paddingBytes 10 3 < 3 :=
  C7_padding_amended 10 3 (by decide) (by decide)

/-- Claim C8 counterexample: `RegisterRenter` is a mutating POST yet
performs its HTTP request with no token and no `Authorization`
header. -/
theorem C8_counterexample :
    ClientOp.isMutating ClientOp.RegisterRenter = true ∧
    clientRequest ClientOp.RegisterRenter "" =
      Except.ok { method := "POST", path := "/renters", auth := none } := by decide

/-- Claim C8 (amended): every mutating metadata-client operation other
than the registration of a new renter or provider, and every read
under `/renters/<id>/...`, requires authorization: with no bearer
token the call fails with an error before any HTTP request, and with a
token the request carries an `Authorization: Bearer <token>` header.
`RegisterRenter` and `RegisterProvider` send unauthenticated POSTs
(see the counterexample). -/
theorem C8_auth_required_amended (op : ClientOp) (token : String)
    (hreq : (op.isMutating = true ∧ op ≠ ClientOp.RegisterRenter ∧
              op ≠ ClientOp.RegisterProvider) ∨ op.isRenterRead = true) :
    (token = "" → clientRequest op token = Except.error authMissingMsg) ∧
    (token ≠ "" → ∃ req, clientRequest op token = Except.ok req ∧
      req.auth = some ("Bearer " ++ token)) := by
  cases op <;>
    simp only [ClientOp.isMutating, ClientOp.isRenterRead, clientRequest] at hreq ⊢ <;>
    first
    | (refine ⟨fun h0 => by simp [h0], fun hne => ?_⟩
       simp only [if_neg hne]
       exact ⟨_, rfl, rfl⟩)
    | simp at hreq

theorem C8_witness :
    (clientRequest (ClientOp.UpdateRenter "r") "" = Except.error authMissingMsg) ∧
    (∃ req, clientRequest (ClientOp.UpdateRenter "r") "tok" = Except.ok req ∧
      req.auth = some ("Bearer " ++ "tok")) :=
  ⟨(C8_auth_required_amended (ClientOp.UpdateRenter "r") "" (Or.inl (by decide))).1 rfl,
   (C8_auth_required_amended (ClientOp.UpdateRenter "r") "tok" (Or.inl (by decide))).2 (by decide)⟩

/-- Claim C9: calling `Download` on a directory with a version number
fails immediately with the folder-version error and performs no
directory creation or block transfer (empty action trace). -/
theorem C9_dir_version_option_rejected (allFiles : List File) (file : File) (destPath : String) (n : Int)
    (defaultPath : String) (fetch : String → Nat → Except String Unit)
    (finish : String → Except String Unit) (hdir : file.IsDir = true) :
    Download allFiles file destPath (some n) defaultPath fetch finish =
      (Except.error "Cannot give version option with folder download", []) := by
  unfold Download
  simp [hdir]

theorem C9_witness :
    Download [] dirWit "dest" (some 1) "defp" (fun _ _ => Except.ok ())
      (fun _ => Except.ok ()) =
      (Except.error "Cannot give version option with folder download", []) :=
  C9_dir_version_option_rejected [] dirWit "dest" 1 "defp" (fun _ _ => Except.ok ()) (fun _ => Except.ok ())
    (by decide)

/-- Claim C10: when the refresh callback fails, `updateCache` leaves
the whole manager state (freelist and `lastCacheUpdate`) unchanged;
`AvailableStorage` then reports the stale freelist total, and
`maybeUpdateCache` leaves the state as it was, so a later call will
attempt the refresh again under the unchanged staleness test. -/
theorem C10_failed_refresh_keeps_state (st : SMState) (js : List Nat) (now updateFreq : Int) :
    updateCache st none js now = st ∧
    AvailableStorage st none js now = (st, freelistTotal st.freelist) ∧
    maybeUpdateCache st none js now updateFreq = st := by
  refine ⟨rfl, rfl, ?_⟩
  unfold maybeUpdateCache updateCache
  split
  · rfl
  · split <;> rfl

end SkyBin
